import Mathlib

/-!
Verification development for the flash client-server messaging framework.

The definitions below are a shallow embedding of the connection/session
subsystem: the byte-level frame codec, the 64-bit scrambler used for the
handshake, the message record with its push/pop byte-stack, and the state
of the TCP and UDP server facades with the operations the claims refer to.

Machine integers are modelled as `Nat` with explicit `% 2^w` wherever the
C++ performs wrapping or truncating arithmetic.  Byte buffers are
`List Nat` with every element below 256.  The host is modelled as
little-endian (the source is endian-generic through boost.endian; the
model fixes the common case, and every endianness-sensitive step appears
explicitly as a byte-order swap, mirroring `native_to_big`/`big_to_native`
call sites in the source).
-/

/-! ## Byte-level codec helpers -/

/-- Little-endian byte serialization of a value into `w` bytes, the model of
`std::memcpy` out of a `w`-byte unsigned integer on a little-endian host. -/
def toBytesLE : Nat → Nat → List Nat
  | 0, _ => []
  | w + 1, v => v % 256 :: toBytesLE w (v / 256)

/-- Little-endian byte deserialization, the model of `std::memcpy` into an
unsigned integer on a little-endian host. -/
def fromBytesLE : List Nat → Nat
  | [] => 0
  | b :: bs => b + 256 * fromBytesLE bs

/-- Big-endian byte serialization into `w` bytes. -/
def toBytesBE (w v : Nat) : List Nat := (toBytesLE w v).reverse

/-- Big-endian byte deserialization. -/
def fromBytesBE (l : List Nat) : Nat := fromBytesLE l.reverse

/-- Model of the 32-bit byte swap: the value-level model of
`boost::endian::native_to_big` / `big_to_native` on a 32-bit quantity on a
little-endian host. -/
def bswap32 (v : Nat) : Nat := fromBytesLE ((toBytesLE 4 v).reverse)

/-- Model of the 64-bit byte swap, the 64-bit analogue of `bswap32`. -/
def bswap64 (v : Nat) : Nat := fromBytesLE ((toBytesLE 8 v).reverse)

theorem toBytesLE_length (w v : Nat) : (toBytesLE w v).length = w := by
  induction w generalizing v with
  | zero => rfl
  | succ w ih => simp [toBytesLE, ih]

theorem toBytesLE_lt (w v : Nat) : ∀ b ∈ toBytesLE w v, b < 256 := by
  induction w generalizing v with
  | zero => intro b hb; simp [toBytesLE] at hb
  | succ w ih =>
    intro b hb
    simp only [toBytesLE, List.mem_cons] at hb
    rcases hb with h | h
    · omega
    · exact ih (v / 256) b h

theorem fromBytesLE_toBytesLE (w v : Nat) :
    fromBytesLE (toBytesLE w v) = v % 2 ^ (8 * w) := by
  induction w generalizing v with
  | zero => simp [toBytesLE, fromBytesLE]; omega
  | succ w ih =>
    have hpow : 2 ^ (8 * (w + 1)) = 256 * 2 ^ (8 * w) := by
      rw [Nat.mul_succ, Nat.pow_add]; ring
    rw [hpow, Nat.mod_mul]
    simp [toBytesLE, fromBytesLE, ih]

theorem toBytesLE_fromBytesLE (w : Nat) (l : List Nat) (hl : l.length = w)
    (hb : ∀ b ∈ l, b < 256) : toBytesLE w (fromBytesLE l) = l := by
  induction w generalizing l with
  | zero =>
    cases l with
    | nil => rfl
    | cons b bs => simp at hl
  | succ w ih =>
    cases l with
    | nil => simp at hl
    | cons b bs =>
      have hblt : b < 256 := hb b (List.mem_cons_self b bs)
      have hlen : bs.length = w := by simpa using hl
      have hmod : (b + 256 * fromBytesLE bs) % 256 = b := by omega
      have hdiv : (b + 256 * fromBytesLE bs) / 256 = fromBytesLE bs := by omega
      have hu : fromBytesLE (b :: bs) = b + 256 * fromBytesLE bs := rfl
      rw [hu, toBytesLE, hmod, hdiv,
        ih bs hlen (fun x hx => hb x (List.mem_cons_of_mem b hx))]

theorem fromBytesLE_lt (l : List Nat) (hb : ∀ b ∈ l, b < 256) :
    fromBytesLE l < 2 ^ (8 * l.length) := by
  induction l with
  | nil => simp [fromBytesLE]
  | cons b bs ih =>
    have hblt : b < 256 := hb b (List.mem_cons_self b bs)
    have htail : fromBytesLE bs < 2 ^ (8 * bs.length) :=
      ih (fun x hx => hb x (List.mem_cons_of_mem b hx))
    have hpow : 2 ^ (8 * (b :: bs).length) = 256 * 2 ^ (8 * bs.length) := by
      rw [List.length_cons, show 8 * (bs.length + 1) = 8 * bs.length + 8 by ring,
        Nat.pow_add]
      ring
    have hmul : 256 * (fromBytesLE bs + 1) ≤ 256 * 2 ^ (8 * bs.length) :=
      Nat.mul_le_mul_left 256 htail
    simp only [fromBytesLE, hpow]
    omega

theorem bswap32_lt (v : Nat) : bswap32 v < 2 ^ 32 := by
  have h := fromBytesLE_lt ((toBytesLE 4 v).reverse)
    (fun b hb => toBytesLE_lt 4 v b (List.mem_reverse.mp hb))
  simpa [bswap32, toBytesLE_length] using h

theorem bswap32_bswap32 (v : Nat) : bswap32 (bswap32 v) = v % 2 ^ 32 := by
  unfold bswap32
  rw [toBytesLE_fromBytesLE 4 ((toBytesLE 4 v).reverse)
      (by simp [toBytesLE_length])
      (fun b hb => toBytesLE_lt 4 v b (List.mem_reverse.mp hb))]
  rw [List.reverse_reverse]
  simpa using fromBytesLE_toBytesLE 4 v

theorem bswap64_fromBytesLE (l : List Nat) (hl : l.length = 8)
    (hb : ∀ b ∈ l, b < 256) : bswap64 (fromBytesLE l) = fromBytesBE l := by
  unfold bswap64 fromBytesBE
  rw [toBytesLE_fromBytesLE 8 l hl hb]

/-! ## Scrambler (src/include/flash/scramble.hpp)

`MixBits` and `Scramble` are the source functions; `rotr32`, `specMix` and
`specScramble` are a second set of definitions following the words of the
specification (section 4.2), used for the refinement claim C1. -/

/-- Source `flash::MixBits`: mixes 64 bits into 32 bits.  `x` is a
`uint64_t`; `xor_shifted`, `rot` and `res` are `uint32_t`, so assignments
into them truncate mod `2^32`, and `(-rot) & 31` is two's-complement
negation in 32 bits followed by a mask. -/
def MixBits (x : Nat) : Nat :=
  let x1 := x ^^^ 0xA0B1C2D3
  let xor_shifted := (((x1 >>> 18) ^^^ x1) >>> 27) % 2 ^ 32
  let rot := x1 >>> 59
  let res := (xor_shifted >>> rot) |||
    ((xor_shifted <<< (((2 ^ 32 - rot) % 2 ^ 32) &&& 31)) % 2 ^ 32)
  res ^^^ 0x12345678

/-- Source `flash::Scramble`: two rounds of `MixBits` interleaved with a
wrapping 64-bit affine map `v * LARGE_PRIME + OFFSET`.  The source literal
for `OFFSET` reads `000'001'000`; its leading zero makes it a C++ octal
literal (digit separators ignored), so its value is `0o1000 = 512`, not
the decimal 1000 the spec states. -/
def Scramble (input : Nat) : Nat :=
  (MixBits ((MixBits input * 6364136223846793005 + 512) % 2 ^ 64)
    * 6364136223846793005 + 512) % 2 ^ 64

/-- Right rotation of a 32-bit value by `r` positions, as named by claim C1
(rotates `s` right by `r` over 32 positions). -/
def rotr32 (s r : Nat) : Nat :=
  ((s >>> (r % 32)) ||| ((s <<< ((32 - r % 32) % 32)) % 2 ^ 32)) % 2 ^ 32

/-- Spec section 4.2 `mix`: xor with `0xA0B1C2D3`, form
`s = ((x >> 18) XOR x) >> 27` as a 32-bit quantity and `r = x >> 59`,
rotate `s` right by `r` over 32 positions, xor with `0x12345678`, cast to
`u64`. -/
def specMix (x : Nat) : Nat :=
  let y := x ^^^ 0xA0B1C2D3
  let s := (((y >>> 18) ^^^ y) >>> 27) % 2 ^ 32
  let r := y >>> 59
  rotr32 s r ^^^ 0x12345678

/-- Spec section 4.2 `scramble`:
`mix(mix(x) * 6364136223846793005 + 1000) * 6364136223846793005 + 1000`,
all arithmetic wrapping on 64 bits. -/
def specScramble (x : Nat) : Nat :=
  (specMix ((specMix x * 6364136223846793005 + 1000) % 2 ^ 64)
    * 6364136223846793005 + 1000) % 2 ^ 64

/-- Bridging lemma for claim C1: the source expression
`(s >> r) | (s << ((-r) & 31))` over `uint32_t`, with `r < 32`, is the
32-bit right rotation by `r`. -/
theorem source_rot_eq_rotr32 (s r : Nat) (hs : s < 2 ^ 32) (hr : r < 32) :
    (s >>> r) ||| ((s <<< (((2 ^ 32 - r) % 2 ^ 32) &&& 31)) % 2 ^ 32) = rotr32 s r := by
  unfold rotr32
  have h31 : ∀ y : Nat, y &&& 31 = y % 32 := by
    intro y
    have h := Nat.and_pow_two_sub_one_eq_mod y 5
    norm_num at h
    exact h
  have hamt : (2 ^ 32 - r) % 2 ^ 32 % 32 = (32 - r % 32) % 32 := by omega
  have hrr : r % 32 = r := Nat.mod_eq_of_lt hr
  rw [h31, hamt, hrr]
  have hsr : s >>> r < 2 ^ 32 := by
    rw [Nat.shiftRight_eq_div_pow]
    exact lt_of_le_of_lt (Nat.div_le_self _ _) hs
  have hor : (s >>> r) ||| ((s <<< ((32 - r) % 32)) % 2 ^ 32) < 2 ^ 32 :=
    Nat.or_lt_two_pow hsr (Nat.mod_lt _ (by norm_num))
  rw [Nat.mod_eq_of_lt hor]

theorem mixBits_eq_specMix (x : Nat) (hx : x < 2 ^ 64) :
    MixBits x = specMix x := by
  have hx1 : x ^^^ 0xA0B1C2D3 < 2 ^ 64 := Nat.xor_lt_two_pow hx (by norm_num)
  have hrot : (x ^^^ 0xA0B1C2D3) >>> 59 < 32 := by
    rw [Nat.shiftRight_eq_div_pow]
    have h59 : (0 : Nat) < 2 ^ 59 := by positivity
    have hlt : x ^^^ 0xA0B1C2D3 < 32 * 2 ^ 59 :=
      lt_of_lt_of_le hx1 (le_of_eq (by norm_num))
    exact (Nat.div_lt_iff_lt_mul h59).mpr hlt
  have hs : ((((x ^^^ 0xA0B1C2D3) >>> 18) ^^^ (x ^^^ 0xA0B1C2D3)) >>> 27) % 2 ^ 32
      < 2 ^ 32 := Nat.mod_lt _ (by norm_num)
  simp only [MixBits, specMix]
  rw [source_rot_eq_rotr32 _ _ hs hrot]

/-! ## Message model (src/include/flash/message.hpp)

`message<T>` is modelled with the type tag as a `Nat` (the C++ `T` is an
enum with `uint32_t` underlying type), the header size field `m_size` as a
`Nat` standing for a `uint32_t` (assignments from `m_body.size()` truncate
mod `2^32`, as the C++ implicit `size_t -> uint32_t` conversion does), and
the body as the list of its bytes. -/

structure message where
  m_type : Nat
  m_size : Nat
  m_body : List Nat
deriving DecidableEq

/-- Source constructor `message(T type) : m_header { type, 0 }`: empty body,
size field zero. -/
def message.mkOf (t : Nat) : message := ⟨t, 0, []⟩

/-- Source `operator<<`: pushing a datum of `sizeof(U) = data.length` bytes
resizes the body, appends the datum's bytes, and assigns
`m_header.m_size = m_body.size()` (a truncating `size_t -> uint32_t`
conversion). -/
def message.push (msg : message) (data : List Nat) : message :=
  let body := msg.m_body ++ data
  { msg with m_body := body, m_size := body.length % 2 ^ 32 }

/-- Source `operator>>`: popping a datum of `szU = sizeof(U)` bytes computes
`sz = m_body.size() - sizeof(U)` in `size_t`, copies the last `szU` bytes
out, shrinks the body to `sz` and assigns the truncated size.  The C++
subtraction underflows when the body is shorter than `szU`; the embedding
makes that situation an explicit error branch (`none`). -/
def message.pop (msg : message) (szU : Nat) : Option (List Nat × message) :=
  if msg.m_body.length < szU then none
  else
    let sz := msg.m_body.length - szU
    some (msg.m_body.drop sz,
      { msg with m_body := msg.m_body.take sz, m_size := sz % 2 ^ 32 })

/-- Spec section 3 message invariant: `header.size` equals `len(body)`. -/
def sizeInv (msg : message) : Prop := msg.m_size = msg.m_body.length

instance (msg : message) : Decidable (sizeInv msg) := by
  unfold sizeInv; infer_instance

/-! ## Update drain loop (tcp/server.hpp, udp/server.hpp)

Both server facades share the same `Update(maxMessages, wait)` body: after
an optional blocking `wait` on the inbound queue (a pure liveness concern,
invisible to the queue contents), the loop pops tagged messages from the
front and dispatches each to `OnMessage` while fewer than `maxMessages`
have been processed and the queue is non-empty.  The model returns the
list of dispatched tagged messages (in dispatch order) together with the
queue that remains. -/

/-- UserId: `int32_t`; the server id is 0, `INVALID_USER_ID` is -1, client
ids start at 100000. -/
abbrev UserId := Int

def INVALID_USER_ID : UserId := -1

/-- Tagged message: sender id plus payload. -/
abbrev TaggedMessage := UserId × message

/-- Source `server::Update` drain loop: `maxMessages` is the remaining
allowance `maxMessages - messageCount`. -/
def Update : Nat → List TaggedMessage → List TaggedMessage × List TaggedMessage
  | 0, q => ([], q)
  | _ + 1, [] => ([], [])
  | maxMessages + 1, t :: rest =>
    let p := Update maxMessages rest
    (t :: p.1, p.2)

/-! ## Association-list registries

The `std::unordered_map` registries are modelled as association lists with
pairwise-distinct keys; map iteration order is modelled as list order
(the C++ iteration order of an `unordered_map` is unspecified). -/

def lookupAssoc {κ α : Type} [DecidableEq κ] (k : κ) : List (κ × α) → Option α
  | [] => none
  | (k2, v) :: rest => if k2 = k then some v else lookupAssoc k rest

def updateAssoc {κ α : Type} [DecidableEq κ] (k : κ) (f : α → α) :
    List (κ × α) → List (κ × α)
  | [] => []
  | (k2, v) :: rest =>
    if k2 = k then (k2, f v) :: rest else (k2, v) :: updateAssoc k f rest

/-- `map.erase(key)`: removes the entry with the given key, a no-op when
the key is absent. -/
def eraseAssoc {κ α : Type} [DecidableEq κ] (k : κ) (l : List (κ × α)) :
    List (κ × α) :=
  l.filter (fun p => p.1 != k)

/-! ## TCP server facade (src/include/flash/tcp/server.hpp)

A `connection<T>` is abstracted to its observable connectivity
(`IsConnected`, i.e. the socket is open) and the list of messages handed
to `connection::Send`.  `OnClientDisconnect` invocations are recorded in
an append-only log so that at-most-once properties are statements about
the log. -/

structure TcpConnection where
  connected : Bool
  sentMessages : List message
deriving DecidableEq

structure TcpServerState where
  activeConnections : List (UserId × TcpConnection)
  qMessagesIn : List TaggedMessage
  disconnectCalls : List UserId
deriving DecidableEq

/-- Source `tcp::server::MessageClient`: look the id up; if found and
connected, forward the send; otherwise erase the entry and invoke
`OnClientDisconnect(clientId)`.  When the id is absent the C++ still runs
the else-branch: it calls `m_activeConnections.erase(conn)` on the end
iterator (undefined behavior, modelled as the no-op erase of an absent
key) and then invokes `OnClientDisconnect(clientId)`. -/
def MessageClient (st : TcpServerState) (clientId : UserId) (msg : message) :
    TcpServerState :=
  let forward := fun (c : TcpConnection) =>
    { c with sentMessages := c.sentMessages ++ [msg] }
  match lookupAssoc clientId st.activeConnections with
  | some conn =>
    if conn.connected then
      { st with activeConnections :=
          updateAssoc clientId forward st.activeConnections }
    else
      { st with
          activeConnections := eraseAssoc clientId st.activeConnections,
          disconnectCalls := st.disconnectCalls ++ [clientId] }
  | none =>
      { st with
          activeConnections := eraseAssoc clientId st.activeConnections,
          disconnectCalls := st.disconnectCalls ++ [clientId] }

/-- First pass of source `tcp::server::MessageAllClients`: walk the
registry in iteration order; skip the ignored id; send a fresh copy
`msgCopy` of `msg` to each connected peer; collect the ids of peers
observed disconnected. -/
def tcpBroadcastPass (msg : message) (ignoreClient : UserId) :
    List (UserId × TcpConnection) →
      List (UserId × TcpConnection) × List UserId
  | [] => ([], [])
  | (id, conn) :: rest =>
    let p := tcpBroadcastPass msg ignoreClient rest
    if id = ignoreClient then ((id, conn) :: p.1, p.2)
    else if conn.connected then
      ((id, { conn with sentMessages := conn.sentMessages ++ [msg] }) :: p.1, p.2)
    else ((id, conn) :: p.1, id :: p.2)

/-- Source `tcp::server::MessageAllClients`: after the pass, erase every
collected id and then invoke `OnClientDisconnect` once per collected id. -/
def MessageAllClients (st : TcpServerState) (msg : message)
    (ignoreClient : UserId) : TcpServerState :=
  let p := tcpBroadcastPass msg ignoreClient st.activeConnections
  { st with
      activeConnections := p.2.foldl (fun m id => eraseAssoc id m) p.1,
      disconnectCalls := st.disconnectCalls ++ p.2 }

/-! ## UDP server facade (src/include/flash/udp/server.hpp)

Endpoints are abstract and modelled as `Nat`.  Wall-clock instants
(`std::chrono::steady_clock::time_point`) are `Nat` nanosecond counts.
`OnClientConnect` and `OnClientDisconnect` invocations are recorded in
append-only logs; the boolean verdict of `OnClientConnect` is passed in as
a parameter.  Datagrams handed to `async_send_to` are recorded as
(endpoint, bytes) pairs in `sentDatagrams`. -/

def MAX_MESSAGE_SIZE_IN_BYTES : Nat := 64000

def CONNECTION_REQUEST_MAGIC_NUMBER : Nat := 0x26E55500

/-- Source `udp::User`. -/
structure User where
  m_endpoint : Nat
  m_lastMessageTime : Nat
  m_validated : Bool
  m_handshake : Nat
  m_handshakeCheck : Nat
deriving DecidableEq

structure UdpServerState where
  qMessagesIn : List TaggedMessage
  qMessagesOut : List TaggedMessage
  m_endpointToUserId : List (Nat × UserId)
  m_userIdToUser : List (UserId × User)
  m_uidCounter : UserId
  sentDatagrams : List (Nat × List Nat)
  connectCalls : List Nat
  disconnectCalls : List UserId
deriving DecidableEq

/-- The size-swap performed inside the posted lambda of `udp::server::Send`:
`msg.get_header().m_size = boost::endian::native_to_big(m_size)`. -/
def SendPost (msg : message) : message := { msg with m_size := bswap32 msg.m_size }

/-- Source `udp::server::Send`: reject (assert in debug, drop in release)
when `msg.size() = sizeof(header) + body.size() = 8 + |body|` exceeds
`MAX_MESSAGE_SIZE_IN_BYTES`; otherwise post a lambda that swaps the header
size to big-endian and enqueues the tagged message on the outbound queue.
The lambda capture `msg = std::move(msg)` move-constructs from the caller's
message, leaving the caller's body empty (the header, trivially copyable,
keeps its value); the second component of the result is that moved-from
residue, which matters because `MessageAllClients` reuses the same
message object across iterations.  (`udp::client::Send` has the same
shape, minus the user id.) -/
def Send (st : UdpServerState) (userId : UserId) (msg : message) :
    UdpServerState × message :=
  if 8 + msg.m_body.length > MAX_MESSAGE_SIZE_IN_BYTES then (st, msg)
  else
    ({ st with qMessagesOut := st.qMessagesOut ++ [(userId, SendPost msg)] },
      { msg with m_body := [] })

/-- Source `udp::server::MessageAllClients` loop body: for each registry
entry whose id differs from `ignoreId`, call `Send(id, std::move(msg))`,
threading the moved-from message into the next iteration. -/
def udpBroadcastLoop (ignoreId : UserId) :
    List (UserId × User) → UdpServerState → message → UdpServerState
  | [], st, _ => st
  | (id, _) :: rest, st, msg =>
    if id ≠ ignoreId then
      let p := Send st id msg
      udpBroadcastLoop ignoreId rest p.1 p.2
    else udpBroadcastLoop ignoreId rest st msg

/-- Source `udp::server::MessageAllClients`. -/
def UdpMessageAllClients (st : UdpServerState) (msg : message)
    (ignoreId : UserId) : UdpServerState :=
  udpBroadcastLoop ignoreId st.m_userIdToUser st msg

/-- Source `udp::server::SendMessages` buffer assembly for the head
outbound message: `memcpy` of the 8-byte header (type in host order, size
field already byte-swapped by `Send`) followed by the body bytes. -/
def SendMessagesBuffer (msg : message) : List Nat :=
  toBytesLE 4 msg.m_type ++ toBytesLE 4 msg.m_size ++ msg.m_body

/-- Source `udp::server::HandleNewConnection`, reached when the sender
endpoint is not in `m_endpointToUserId`: require an exactly-8-byte
datagram whose u64, read and converted `big_to_native`, equals the magic
number; otherwise return with the state untouched.  On a match, consult
`OnClientConnect` (verdict passed as `accept`); on approval allocate the
next id, record the not-yet-validated peer in both maps with handshake
values scrambled from the arrival time, and send the handshake
(big-endian) back. -/
def HandleNewConnection (now : Nat) (remoteEndpoint : Nat) (accept : Bool)
    (buf : List Nat) (st : UdpServerState) : UdpServerState :=
  if buf.length ≠ 8 then st
  else
    let magicNumber := bswap64 (fromBytesLE buf)
    if magicNumber ≠ CONNECTION_REQUEST_MAGIC_NUMBER then st
    else
      let st1 := { st with connectCalls := st.connectCalls ++ [remoteEndpoint] }
      if accept then
        let newId := st.m_uidCounter
        let handshake := Scramble now
        let handshakeCheck := Scramble handshake
        { st1 with
            m_uidCounter := st.m_uidCounter + 1,
            m_endpointToUserId :=
              st.m_endpointToUserId ++ [(remoteEndpoint, newId)],
            m_userIdToUser := st.m_userIdToUser ++
              [(newId, ⟨remoteEndpoint, now, false, handshake, handshakeCheck⟩)],
            sentDatagrams :=
              st.sentDatagrams ++ [(remoteEndpoint, toBytesBE 8 handshake)] }
      else st1

/-- Source `udp::server::ProcessMessage`, reached for a validated peer:
ignore datagrams shorter than the 8-byte header; decode the header
(`m_size` converted `big_to_native`); ignore when the remaining length
differs from the decoded size; otherwise copy the body, refresh the
peer's `m_lastMessageTime`, and push the tagged message on the inbound
queue. -/
def ProcessMessage (now : Nat) (userId : UserId) (buf : List Nat)
    (st : UdpServerState) : UdpServerState :=
  let refresh := fun (u : User) => { u with m_lastMessageTime := now }
  if buf.length < 8 then st
  else
    let t := fromBytesLE (buf.take 4)
    let sz := bswap32 (fromBytesLE ((buf.drop 4).take 4))
    if buf.length - 8 ≠ sz then st
    else
      { st with
          m_userIdToUser := updateAssoc userId refresh st.m_userIdToUser,
          qMessagesIn :=
            st.qMessagesIn ++ [(userId, ⟨t, sz, (buf.drop 8).take sz⟩)] }

/-- Source `udp::server::CleanupUsers`: collect every peer whose
`m_lastMessageTime` lies more than `serverTimeout` milliseconds in the
past, erase each from both maps, then invoke `OnClientDisconnect` once per
collected id. -/
def CleanupUsers (now : Nat) (serverTimeout : Nat) (st : UdpServerState) :
    UdpServerState :=
  let timedOut :=
    (st.m_userIdToUser.filter
      (fun p => now - p.2.m_lastMessageTime > serverTimeout)).map Prod.fst
  { st with
      m_endpointToUserId := timedOut.foldl
        (fun m id =>
          match lookupAssoc id st.m_userIdToUser with
          | some u => eraseAssoc u.m_endpoint m
          | none => m) st.m_endpointToUserId,
      m_userIdToUser := timedOut.foldl (fun m id => eraseAssoc id m)
        st.m_userIdToUser,
      disconnectCalls := st.disconnectCalls ++ timedOut }

/-! ## Sample states used by witnesses and concrete evaluations -/

/-- A freshly constructed UDP server state: empty queues and registries,
uid counter at 100000. -/
def emptyUdpState : UdpServerState := ⟨[], [], [], [], 100000, [], [], []⟩

/-! ## Claim theorems -/

/-- Claim C1 counterexample: at the 64-bit input 3 the source `Scramble`
differs from the spec composition with additive constant 1000, because
the source's `OFFSET` literal `000'001'000` is octal and equal to 512.
Concretely `Scramble 3 = 2402408236438394399` while
`specScramble 3 = 2402408236438394887`. -/
theorem scramble_ne_specScramble_at_3 : Scramble 3 ≠ specScramble 3 := by
  decide

/-- Claim C1 (amended): for every 64-bit input `x`, the source `Scramble x`
equals the spec composition
`specMix (specMix x * 6364136223846793005 + 512) * 6364136223846793005 + 512`
with all arithmetic wrapping on 64 bits, where `specMix` follows the
spec's `mix` word for word (xor `0xA0B1C2D3`, form `s` and `r`, rotate `s`
right by `r` over 32 positions, xor `0x12345678`) and the additive
constant is 512 - the value of the source's octal literal `000'001'000` -
in place of the spec's 1000. -/
theorem scramble_eq_specMix_composition (x : Nat) (hx : x < 2 ^ 64) :
    Scramble x =
      (specMix ((specMix x * 6364136223846793005 + 512) % 2 ^ 64)
        * 6364136223846793005 + 512) % 2 ^ 64 := by
  unfold Scramble
  rw [mixBits_eq_specMix x hx,
    mixBits_eq_specMix _ (Nat.mod_lt _ (by norm_num))]

/-- Witness for claim C1 (amended) at the concrete input 3. -/
theorem scramble_eq_specMix_composition_w :
    3 < 2 ^ 64 ∧
    Scramble 3 =
      (specMix ((specMix 3 * 6364136223846793005 + 512) % 2 ^ 64)
        * 6364136223846793005 + 512) % 2 ^ 64 :=
  ⟨by norm_num, scramble_eq_specMix_composition 3 (by norm_num)⟩

/-- Claim C8: `Update(max, wait)` removes exactly `min(max, |q|)` tagged
messages from the front of the inbound queue, dispatches them via
`OnMessage` in the FIFO order in which they sit in the queue (the first
component is the dispatch log, in call order), and leaves the remaining
suffix of the queue in order.  The `wait` flag only blocks until the
queue is non-empty and does not affect the drained contents. -/
theorem update_drains_fifo (maxMessages : Nat) (q : List TaggedMessage) :
    (Update maxMessages q).1 = q.take maxMessages ∧
    (Update maxMessages q).2 = q.drop maxMessages ∧
    (Update maxMessages q).1.length = min maxMessages q.length := by
  induction maxMessages generalizing q with
  | zero => simp [Update]
  | succ m ih =>
    cases q with
    | nil => simp [Update]
    | cons t rest =>
      obtain ⟨h1, h2, h3⟩ := ih rest
      refine ⟨?_, ?_, ?_⟩
      · simp [Update, h1]
      · simp [Update, h2]
      · simp [Update, h3]
        omega

/-- Claim C10: popping a datum of `szU` bytes is guarded exactly by the
precondition `szU ≤ |body|`: the embedding's error branch (the `size_t`
underflow of `m_body.size() - sizeof(U)`) is taken exactly when the body
is shorter, and under the precondition the popped bytes are the final
`szU` bytes of the body, so the copy reads entirely within the body and
the remaining body is the untouched prefix. -/
theorem pop_underflow_guard (msg : message) (szU : Nat) :
    ((msg.pop szU).isSome ↔ szU ≤ msg.m_body.length) ∧
    (∀ bs rest, msg.pop szU = some (bs, rest) →
      bs.length = szU ∧ rest.m_body.length = msg.m_body.length - szU ∧
      rest.m_body ++ bs = msg.m_body) := by
  unfold message.pop
  by_cases h : msg.m_body.length < szU
  · simp [h]
  · constructor
    · simp [h]
      omega
    · intro bs rest heq
      simp only [if_neg h, Option.some.injEq, Prod.mk.injEq] at heq
      obtain ⟨hbs, hrest⟩ := heq
      subst hbs
      subst hrest
      refine ⟨?_, ?_, ?_⟩
      · simp [List.length_drop]
        omega
      · simp [List.length_take]
      · exact List.take_append_drop _ _

/-- Witness for claim C10 at the message with body `[5, 6]` and a 1-byte
pop. -/
theorem pop_underflow_guard_w :
    ((⟨0, 2, [5, 6]⟩ : message).pop 1).isSome ∧
    ([6].length = 1 ∧ [5].length = [5, 6].length - 1 ∧ [5] ++ [6] = [5, 6]) :=
  ⟨(pop_underflow_guard ⟨0, 2, [5, 6]⟩ 1).1.mpr (by decide),
   (pop_underflow_guard ⟨0, 2, [5, 6]⟩ 1).2 [6] ⟨0, 1, [5]⟩ (by decide)⟩

/-- Claim C9 counterexample: the claim says the size invariant is
preserved by every push, but `m_header.m_size` is a `uint32_t` assigned
from `m_body.size()` (a `size_t`), so a push that brings the body to
exactly `2^32` bytes stores `0` in the size field: the invariant fails at
that rest point. -/
theorem push_truncates_at_two_pow_32 :
    ¬ sizeInv ((message.mkOf 0).push (List.replicate (2 ^ 32) 0)) := by
  have key : ∀ l : List Nat, l.length = 2 ^ 32 →
      ¬ sizeInv ((message.mkOf 0).push l) := by
    intro l hl h
    have h1 : ((message.mkOf 0).push l).m_size = l.length % 2 ^ 32 := by
      simp [message.push, message.mkOf]
    have h2 : ((message.mkOf 0).push l).m_body = l := by
      simp [message.push, message.mkOf]
    rw [sizeInv, h1, h2, hl, Nat.mod_self] at h
    exact absurd h (by norm_num)
  exact key _ (List.length_replicate _ _)

/-- Claim C9 (amended): the invariant `header.size = len(body)` is
established by the constructor, preserved by every pop whose popped type
is no larger than the current body (at any rest point whose body length is
representable in the 32-bit size field), and preserved by every push for
which the resulting body length stays below `2^32`; a push reaching
`2^32` total bytes stores the length truncated mod `2^32` and breaks the
invariant. -/
theorem sizeInv_preservation (t : Nat) (msg : message) (data : List Nat)
    (szU : Nat) :
    sizeInv (message.mkOf t) ∧
    (sizeInv msg → msg.m_body.length + data.length < 2 ^ 32 →
      sizeInv (msg.push data)) ∧
    (sizeInv msg → msg.m_body.length < 2 ^ 32 →
      ∀ bs rest, msg.pop szU = some (bs, rest) → sizeInv rest) := by
  refine ⟨by simp [sizeInv, message.mkOf], ?_, ?_⟩
  · intro hinv hlt
    simp only [sizeInv, message.push, List.length_append]
    exact Nat.mod_eq_of_lt (by simpa using hlt)
  · intro hinv hlt bs rest heq
    unfold message.pop at heq
    by_cases h : msg.m_body.length < szU
    · simp [h] at heq
    · simp only [if_neg h, Option.some.injEq, Prod.mk.injEq] at heq
      obtain ⟨hbs, hrest⟩ := heq
      subst hrest
      simp only [sizeInv, List.length_take]
      omega

/-- Witness for claim C9 (amended) at concrete messages: a 1-byte push
onto a 1-byte body and a 1-byte pop off a 2-byte body. -/
theorem sizeInv_preservation_w :
    sizeInv ((⟨2, 1, [9]⟩ : message).push [7]) ∧
    sizeInv (⟨2, 1, [8]⟩ : message) :=
  ⟨(sizeInv_preservation 0 ⟨2, 1, [9]⟩ [7] 1).2.1 (by decide) (by decide),
   (sizeInv_preservation 0 ⟨2, 2, [8, 9]⟩ [] 1).2.2 (by decide) (by decide)
     [9] ⟨2, 1, [8]⟩ (by decide)⟩

/-- Claim C4 counterexample: the claim says every message with body length
at most 64000 bytes is accepted, but `Send` compares
`msg.size() = sizeof(header) + m_body.size() = 8 + |body|` against the
cap, so the 64000-byte body below is rejected (debug assert; in release
nothing is enqueued and the state is returned unchanged). -/
theorem send_rejects_64000_byte_body :
    (List.replicate 64000 (0 : Nat)).length = 64000 ∧
    Send emptyUdpState 100000 ⟨1, 64000, List.replicate 64000 0⟩ =
      (emptyUdpState, ⟨1, 64000, List.replicate 64000 0⟩) := by
  have key : ∀ l : List Nat, l.length = 64000 →
      Send emptyUdpState 100000 ⟨1, 64000, l⟩ =
        (emptyUdpState, ⟨1, 64000, l⟩) := by
    intro l hl
    unfold Send MAX_MESSAGE_SIZE_IN_BYTES
    rw [if_pos]
    show 8 + l.length > 64000
    omega
  exact ⟨List.length_replicate _ _, key _ (List.length_replicate _ _)⟩

/-- Claim C4 (amended): the datagram `Send` (server, and identically the
client) rejects an outbound message - asserting in debug, sending nothing
and leaving the outbound queue and all registry state unchanged in
release - exactly when the total message size, the 8-byte header plus the
body, exceeds `MAX_MESSAGE_SIZE = 64000`; every message whose body length
is at most 63992 bytes is accepted and enqueued for sending. -/
theorem send_cap (st : UdpServerState) (userId : UserId) (msg : message) :
    (msg.m_body.length ≤ 63992 →
      Send st userId msg =
        ({ st with qMessagesOut := st.qMessagesOut ++ [(userId, SendPost msg)] },
          { msg with m_body := [] })) ∧
    (63992 < msg.m_body.length → Send st userId msg = (st, msg)) := by
  unfold Send MAX_MESSAGE_SIZE_IN_BYTES
  constructor
  · intro h
    rw [if_neg (by omega)]
  · intro h
    rw [if_pos (by omega)]

/-- Witness for claim C4 (amended): a 3-byte body is enqueued with its
size field swapped to big-endian, and the caller's message is left
moved-from. -/
theorem send_cap_w :
    Send emptyUdpState 100000 ⟨1, 3, [1, 2, 3]⟩ =
      ({ emptyUdpState with qMessagesOut :=
          emptyUdpState.qMessagesOut ++ [((100000 : UserId), SendPost ⟨1, 3, [1, 2, 3]⟩)] },
        { (⟨1, 3, [1, 2, 3]⟩ : message) with m_body := [] }) :=
  (send_cap emptyUdpState 100000 ⟨1, 3, [1, 2, 3]⟩).1 (by norm_num)

/-- A UDP server state with two validated registered peers (ids 100000 at
endpoint 11 and 100001 at endpoint 22), used by the broadcast evaluation. -/
def twoUserState : UdpServerState :=
  { qMessagesIn := [], qMessagesOut := [],
    m_endpointToUserId := [(11, 100000), (22, 100001)],
    m_userIdToUser := [(100000, ⟨11, 0, true, 0, 0⟩), (100001, ⟨22, 0, true, 0, 0⟩)],
    m_uidCounter := 100002, sentDatagrams := [], connectCalls := [],
    disconnectCalls := [] }

/-- Claim C2 evaluation at its failing input: broadcasting the message
with type 7 and body `[1, 2, 3]` to two registered peers with no ignore
id.  `MessageAllClients` passes `std::move(msg)` to `Send` on every
iteration, and `Send`'s posted lambda move-constructs from the caller's
message, so only the first recipient's enqueued copy carries the body;
the second recipient's enqueued message keeps the (byte-swapped) size
field 50331648 = bswap32 3 but an empty body - not a copy of the
broadcast message. -/
theorem udp_broadcast_second_copy_empty :
    (UdpMessageAllClients twoUserState ⟨7, 3, [1, 2, 3]⟩ INVALID_USER_ID).qMessagesOut =
      [(100000, ⟨7, 50331648, [1, 2, 3]⟩), (100001, ⟨7, 50331648, []⟩)] := by
  decide

/-- A TCP server state holding one registered client, id 100000, whose
socket has been observed closed (`IsConnected()` is false). -/
def staleConnState : TcpServerState :=
  { activeConnections := [(100000, ⟨false, []⟩)], qMessagesIn := [],
    disconnectCalls := [] }

/-- Claim C3 evaluation at its failing input: two successive
`MessageClient(100000, msg)` calls against a registry whose entry for
100000 is present but no longer connected.  The first call erases the
entry and invokes `OnClientDisconnect(100000)`; the second call fails to
find the id, yet still runs the disconnect branch (calling `erase` on the
end iterator - undefined behavior - and `OnClientDisconnect(100000)`
again), so the callback log holds the id twice, contradicting
at-most-once. -/
theorem tcp_messageClient_double_disconnect :
    (MessageClient (MessageClient staleConnState 100000 (message.mkOf 0))
      100000 (message.mkOf 0)).disconnectCalls = [100000, 100000] := by
  decide

/-- Claim C6: a datagram arriving from an unknown endpoint whose length is
not exactly 8 bytes, or whose 8 bytes decoded big-endian differ from
`CONNECTION_REQUEST_MAGIC_NUMBER = 0x26E55500`, is rejected silently: the
returned state is the input state, so no id is allocated, both registry
maps are unchanged, `OnClientConnect` is never invoked (its log is
untouched) and no reply datagram is recorded. -/
theorem handleNewConnection_rejects_silently (now remoteEndpoint : Nat)
    (accept : Bool) (buf : List Nat) (st : UdpServerState)
    (hb : ∀ b ∈ buf, b < 256)
    (h : buf.length ≠ 8 ∨ fromBytesBE buf ≠ CONNECTION_REQUEST_MAGIC_NUMBER) :
    HandleNewConnection now remoteEndpoint accept buf st = st := by
  unfold HandleNewConnection
  by_cases hl : buf.length = 8
  · rw [if_neg (by simp [hl])]
    rcases h with h | h
    · exact absurd hl h
    · rw [bswap64_fromBytesLE buf hl hb, if_pos h]
  · rw [if_pos hl]

/-- Witness for claim C6 at the spec's scenario 4 input: an 8-byte
all-zero datagram (big-endian value 0, not the magic number). -/
theorem handleNewConnection_rejects_silently_w :
    HandleNewConnection 0 7 true [0, 0, 0, 0, 0, 0, 0, 0] emptyUdpState =
      emptyUdpState :=
  handleNewConnection_rejects_silently 0 7 true [0, 0, 0, 0, 0, 0, 0, 0]
    emptyUdpState (by decide) (Or.inr (by decide))

/-- Claim C7: for a validated datagram peer, a packet shorter than the
8-byte header, or whose length minus 8 differs from the header's decoded
host-order size field, is ignored: the state is returned unchanged, so
the inbound queue is untouched, `m_lastMessageTime` is not refreshed, and
the peer stays in both registry maps. -/
theorem processMessage_ignores_malformed (now : Nat) (userId : UserId)
    (buf : List Nat) (st : UdpServerState)
    (h : buf.length < 8 ∨
      buf.length - 8 ≠ bswap32 (fromBytesLE ((buf.drop 4).take 4))) :
    ProcessMessage now userId buf st = st := by
  unfold ProcessMessage
  by_cases hl : buf.length < 8
  · rw [if_pos hl]
  · rcases h with h | h
    · exact absurd h hl
    · rw [if_neg hl, if_pos h]

/-- Witness for claim C7 at a concrete malformed packet: an 8-byte packet
whose header announces a 1-byte body that is not present. -/
theorem processMessage_ignores_malformed_w :
    ProcessMessage 0 100000 [0, 0, 0, 0, 0, 0, 0, 1] emptyUdpState =
      emptyUdpState :=
  processMessage_ignores_malformed 0 100000 [0, 0, 0, 0, 0, 0, 0, 1]
    emptyUdpState (Or.inr (by decide))

/-- Claim C5: for every well-formed message whose body is at most
`MAX_MESSAGE_SIZE` bytes, feeding the exact byte buffer produced by the
datagram send path (8-byte header whose size field was converted to
big-endian by `Send`'s posted lambda, followed by the body, as assembled
by `SendMessages`) into the datagram receive path `ProcessMessage`
reconstructs a message equal to the original - same type, host-order size
equal to the body length, identical body bytes - and pushes it, tagged
with the peer id, onto the inbound queue (also refreshing the peer's
`m_lastMessageTime`, which `ProcessMessage` always does on acceptance). -/
theorem udp_framing_roundtrip (now : Nat) (userId : UserId)
    (st : UdpServerState) (msg : message) (ht : msg.m_type < 2 ^ 32)
    (hsz : msg.m_size = msg.m_body.length)
    (hlen : msg.m_body.length ≤ 64000) :
    ProcessMessage now userId (SendMessagesBuffer (SendPost msg)) st =
      { st with
          m_userIdToUser := updateAssoc userId
            (fun u => { u with m_lastMessageTime := now }) st.m_userIdToUser,
          qMessagesIn := st.qMessagesIn ++ [(userId, msg)] } := by
  obtain ⟨mt, ms, mb⟩ := msg
  simp only at ht hsz hlen
  have hbuf : SendMessagesBuffer (SendPost ⟨mt, ms, mb⟩)
      = toBytesLE 4 mt ++ (toBytesLE 4 (bswap32 ms) ++ mb) := by
    simp [SendMessagesBuffer, SendPost]
  have hlen4t : (toBytesLE 4 mt).length = 4 := toBytesLE_length 4 _
  have hlen4s : (toBytesLE 4 (bswap32 ms)).length = 4 := toBytesLE_length 4 _
  have hblen : (SendMessagesBuffer (SendPost ⟨mt, ms, mb⟩)).length
      = 8 + mb.length := by
    rw [hbuf]
    simp [hlen4t, hlen4s]
    omega
  have htake4 : (SendMessagesBuffer (SendPost ⟨mt, ms, mb⟩)).take 4
      = toBytesLE 4 mt := by
    rw [hbuf]
    exact List.take_left' hlen4t
  have hdrop4 : (SendMessagesBuffer (SendPost ⟨mt, ms, mb⟩)).drop 4
      = toBytesLE 4 (bswap32 ms) ++ mb := by
    rw [hbuf]
    exact List.drop_left' hlen4t
  have htake44 : ((SendMessagesBuffer (SendPost ⟨mt, ms, mb⟩)).drop 4).take 4
      = toBytesLE 4 (bswap32 ms) := by
    rw [hdrop4]
    exact List.take_left' hlen4s
  have hdrop8 : (SendMessagesBuffer (SendPost ⟨mt, ms, mb⟩)).drop 8 = mb := by
    have h44 : ((SendMessagesBuffer (SendPost ⟨mt, ms, mb⟩)).drop 4).drop 4
        = (SendMessagesBuffer (SendPost ⟨mt, ms, mb⟩)).drop 8 :=
      List.drop_drop 4 4 _
    rw [← h44, hdrop4]
    exact List.drop_left' hlen4s
  have htval : fromBytesLE ((SendMessagesBuffer (SendPost ⟨mt, ms, mb⟩)).take 4)
      = mt := by
    rw [htake4, fromBytesLE_toBytesLE]
    rw [show (2 : Nat) ^ (8 * 4) = 2 ^ 32 by norm_num]
    exact Nat.mod_eq_of_lt ht
  have hszval : bswap32 (fromBytesLE
      (((SendMessagesBuffer (SendPost ⟨mt, ms, mb⟩)).drop 4).take 4)) = ms := by
    rw [htake44, fromBytesLE_toBytesLE]
    rw [show (2 : Nat) ^ (8 * 4) = 2 ^ 32 by norm_num]
    rw [Nat.mod_eq_of_lt (bswap32_lt ms), bswap32_bswap32]
    omega
  simp only [ProcessMessage]
  rw [if_neg (by omega), hszval, htval, hdrop8]
  rw [if_neg (by omega)]
  rw [hsz, List.take_length]

/-- Witness for claim C5 at the concrete message with type 1 and body
`[1, 2, 3]`, received by peer 100000 of the two-peer sample state. -/
theorem udp_framing_roundtrip_w :
    ProcessMessage 9 100000
      (SendMessagesBuffer (SendPost ⟨1, 3, [1, 2, 3]⟩)) twoUserState =
      { twoUserState with
          m_userIdToUser := updateAssoc 100000
            (fun u => { u with m_lastMessageTime := 9 })
            twoUserState.m_userIdToUser,
          qMessagesIn := twoUserState.qMessagesIn ++ [((100000 : UserId), ⟨1, 3, [1, 2, 3]⟩)] } :=
  udp_framing_roundtrip 9 100000 twoUserState ⟨1, 3, [1, 2, 3]⟩
    (by norm_num) (by norm_num) (by norm_num)
